import Mathlib

/-!
Verification development for the `edos-jls-chatbot` retrieval-augmented
question-answering pipeline.

Shallow embedding conventions:
* Python `str` values are modelled as `List Char`; slicing `s[a:b]` becomes
  `(s.drop a).take (b - a)`; `len` becomes `List.length`.
* `float` arithmetic is modelled over `ℚ` (exact arithmetic); the L2 norm
  `np.linalg.norm v`, which is irrational in general, is passed to the model
  as an explicit value `r` constrained by `r * r = normSq v ∧ 0 ≤ r`.
* The embedding backend (Gemini API) is an external collaborator and is
  modelled as a function parameter; theorems quantify over it.
* Python `while` loops and regex passes are modelled as fuel-indexed
  structural recursions; the fuel bound is part of what is proved.
-/

namespace JlsChatbot

/-! ## Chunker — `chunk_text` from `scripts/ingest.py`

```python
def chunk_text(text: str, chunk_size=1200, overlap=200):
    chunks = []
    start = 0
    L = len(text)
    while start < L:
        end = start + chunk_size
        chunk = text[start:end]
        chunks.append((start, min(end, L), chunk))
        start = max(end - overlap, end)
        if start == end:
            start += chunk_size
    return chunks
```
-/

/-- One iteration of the `while start < L` loop of `chunk_text`, with `fuel`
bounding the number of iterations (`none` = fuel exhausted before the loop
finished).  `start = max(end - overlap, end)` is computed over `ℤ` exactly as
Python computes it over unbounded ints, then converted back (the result is
`end`, hence nonnegative). -/
def chunkTextAux (size ov : Nat) (text : List Char) :
    Nat → Nat → Option (List (Nat × Nat × List Char))
  | 0, _ => none
  | fuel + 1, start =>
    if start < text.length then
      let e := start + size
      let chunk := (text.drop start).take size
      let start1 := (max ((e : Int) - (ov : Int)) (e : Int)).toNat
      let start2 := if start1 = e then start1 + size else start1
      match chunkTextAux size ov text fuel start2 with
      | none => none
      | some rest => some ((start, min e text.length, chunk) :: rest)
    else
      some []

/-- `chunk_text(text, size, overlap)`: run the loop from `start = 0` with fuel
`len(text) + 1` (proved sufficient whenever `size ≥ 1` in
`chunk_text_terminates`). -/
def chunk_text (text : List Char) (size ov : Nat) :
    Option (List (Nat × Nat × List Char)) :=
  chunkTextAux size ov text (text.length + 1) 0

/-- `max(end - overlap, end)` always evaluates to `end` (for `overlap ≥ 0`),
so the assignment `start = max(end - overlap, end)` never applies the overlap. -/
theorem chunkStart1_eq (e ov : Nat) :
    (max ((e : Int) - (ov : Int)) (e : Int)).toNat = e := by
  rw [max_eq_right (by omega : (e : Int) - (ov : Int) ≤ (e : Int))]
  omega

/-- The loop advances `start` by `2 * size` per iteration: `max(end-overlap,
end) = end` for every `overlap ≥ 0`, and then the `start == end` guard adds
`size` again. -/
theorem chunkTextAux_isSome (size ov : Nat) (text : List Char) :
    ∀ fuel start, text.length - start < fuel → 1 ≤ size →
      (chunkTextAux size ov text fuel start).isSome := by
  intro fuel
  induction fuel with
  | zero => intro start h _; omega
  | succ n ih =>
    intro start h hsize
    rw [chunkTextAux]
    by_cases hs : start < text.length
    · simp only [hs, if_true, chunkStart1_eq, eq_self_iff_true]
      have h2 : text.length - (start + size + size) < n := by omega
      have hrec := ih (start + size + size) h2 hsize
      cases hck : chunkTextAux size ov text n (start + size + size) with
      | none => rw [hck] at hrec; simp at hrec
      | some rest => simp only [hck]; simp
    · simp [hs]

/-- C8: `chunk_text` terminates normally (the fuel `len(text) + 1` is never
exhausted) for every input string, every `size ≥ 1` and every `overlap ≥ 0`:
after the `max(end - overlap, end)` computation `start` equals `end`, the
defensive `start == end` guard then advances it by `size`, so every iteration
advances `start` by at least `size ≥ 1`. -/
theorem chunk_text_terminates (text : List Char) (size ov : Nat)
    (hsize : 1 ≤ size) : (chunk_text text size ov).isSome := by
  exact chunkTextAux_isSome size ov text (text.length + 1) 0 (by omega) hsize

theorem chunk_text_terminates_witness :
    1 ≤ 2 ∧ (chunk_text ("abcde".toList) 2 1).isSome :=
  ⟨by decide, chunk_text_terminates ("abcde".toList) 2 1 (by decide)⟩

/-- C1 (failing input for the tiling claim): on a 30-character text with
`size = 12`, `overlap = 2` the code returns the spans `[0,12)` and `[24,30)`:
characters 12‥23 belong to no chunk, because `start = max(end - overlap, end)`
always evaluates to `end` and the `start == end` guard then skips a further
`size` characters.  The spans do not tile the input and do not advance by
`size - overlap = 10`. -/
theorem chunk_text_gap_at_30_12_2 :
    chunk_text (List.replicate 30 'a') 12 2 =
      some [(0, 12, List.replicate 12 'a'), (24, 30, List.replicate 6 'a')] := by
  decide

/-! ## TextNormalizer — `clean_text` from `src/utils.py`
(identical file `src/jls_chatbot/core/utils.py`)

```python
def clean_text(text: str) -> str:
    text = text.replace('\r', '\n')
    text = re.sub(r'\n{3,}', '\n\n', text)
    text = re.sub(r'\s+',' ', text)
    text = text.strip()
    return text
```
-/

/-- The characters Python's `\s` matches on ASCII text: space, tab, newline,
carriage return, vertical tab (11) and form feed (12).  (Python `\s` also
matches some non-ASCII unicode spaces; the corpus here is ASCII-cleaned PDF
text, so the model restricts to the ASCII whitespace class.) -/
def isWs (c : Char) : Bool :=
  c = ' ' || c = '\t' || c = '\n' || c = '\r' || c.toNat = 11 || c.toNat = 12

/-- `text.replace('\r', '\n')`. -/
def replaceCr (s : List Char) : List Char :=
  s.map fun c => if c = '\r' then '\n' else c

/-- `re.sub(r'\n{3,}', '\n\n', text)`: every maximal run of three or more
newlines is replaced by exactly two; shorter runs are kept.  The fuel is the
input length (each step consumes at least one character). -/
def collapseNlAux : Nat → List Char → List Char
  | 0, _ => []
  | _ + 1, [] => []
  | fuel + 1, c :: rest =>
    if c = '\n' then
      (if (rest.takeWhile fun d => d = '\n').length + 1 ≥ 3 then ['\n', '\n']
       else c :: (rest.takeWhile fun d => d = '\n')) ++
        collapseNlAux fuel (rest.drop (rest.takeWhile fun d => d = '\n').length)
    else c :: collapseNlAux fuel rest

def collapseNl (s : List Char) : List Char := collapseNlAux s.length s

/-- `re.sub(r'\s+', ' ', text)`: every maximal run of whitespace becomes a
single space.  The boolean tracks whether the previous character belonged to a
whitespace run already replaced. -/
def collapseWsAux : Bool → List Char → List Char
  | _, [] => []
  | inRun, c :: rest =>
    if isWs c then
      (if inRun then collapseWsAux true rest else ' ' :: collapseWsAux true rest)
    else c :: collapseWsAux false rest

def collapseWs (s : List Char) : List Char := collapseWsAux false s

/-- Python `str.strip()`: drop leading and trailing whitespace. -/
def pyStrip (s : List Char) : List Char :=
  ((s.dropWhile fun c => isWs c).reverse.dropWhile fun c => isWs c).reverse

/-- `clean_text`, the composition of the four passes in source order. -/
def clean_text (s : List Char) : List Char :=
  pyStrip (collapseWs (collapseNl (replaceCr s)))

/-- Every character emitted by the whitespace-collapsing pass is either a
plain space or not whitespace at all. -/
theorem mem_collapseWsAux (inRun : Bool) (l : List Char) :
    ∀ c ∈ collapseWsAux inRun l, c = ' ' ∨ isWs c = false := by
  induction l generalizing inRun with
  | nil => intro c hc; simp [collapseWsAux] at hc
  | cons a rest ih =>
    intro c hc
    rw [collapseWsAux] at hc
    by_cases ha : isWs a
    · rw [if_pos ha] at hc
      cases inRun with
      | true => exact ih true c hc
      | false =>
        rw [if_neg (by simp)] at hc
        rcases List.mem_cons.mp hc with h | h
        · exact Or.inl h
        · exact ih true c h
    · rw [if_neg ha] at hc
      rcases List.mem_cons.mp hc with h | h
      · subst h; exact Or.inr (by simpa using ha)
      · exact ih false c h

/-- In run-continuation state the collapsing pass never emits a whitespace
character first. -/
theorem head?_collapseWsAux_true (l : List Char) :
    ∀ c, (collapseWsAux true l).head? = some c → isWs c = false := by
  induction l with
  | nil => intro c hc; simp [collapseWsAux] at hc
  | cons a rest ih =>
    intro c hc
    rw [collapseWsAux] at hc
    by_cases ha : isWs a
    · rw [if_pos ha, if_pos rfl] at hc
      exact ih c hc
    · rw [if_neg ha] at hc
      simp only [List.head?_cons, Option.some.injEq] at hc
      subst hc; simpa using ha

/-- Adjacent characters emitted by the collapsing pass are never both
whitespace. -/
theorem chain'_collapseWsAux (inRun : Bool) (l : List Char) :
    List.Chain' (fun a b => isWs a = false ∨ isWs b = false)
      (collapseWsAux inRun l) := by
  induction l generalizing inRun with
  | nil => exact List.chain'_nil
  | cons a rest ih =>
    rw [collapseWsAux]
    by_cases ha : isWs a
    · rw [if_pos ha]
      cases inRun with
      | true => exact ih true
      | false =>
        rw [if_neg (by simp)]
        refine List.chain'_cons'.mpr ⟨?_, ih true⟩
        intro y hy
        exact Or.inr (head?_collapseWsAux_true rest y hy)
    · rw [if_neg ha]
      refine List.chain'_cons'.mpr ⟨?_, ih false⟩
      intro y _
      exact Or.inl (by simpa using ha)

/-- The head of `dropWhile p` never satisfies `p`. -/
theorem head?_dropWhile_not (p : Char → Bool) (l : List Char) :
    ∀ c, (l.dropWhile p).head? = some c → p c = false := by
  induction l with
  | nil => intro c hc; simp at hc
  | cons a rest ih =>
    intro c hc
    rw [List.dropWhile_cons] at hc
    by_cases ha : p a
    · rw [if_pos (by simpa using ha)] at hc; exact ih c hc
    · rw [if_neg (by simpa using ha)] at hc
      simp only [List.head?_cons, Option.some.injEq] at hc
      subst hc; simpa using ha

/-- `strip` returns a prefix of `dropWhile isWs`. -/
theorem pyStrip_front (s : List Char) :
    pyStrip s <+: s.dropWhile fun c => isWs c := by
  unfold pyStrip
  have h := List.dropWhile_suffix (l := (s.dropWhile fun c => isWs c).reverse)
    (fun c => isWs c)
  have h2 := List.reverse_prefix.mpr h
  rwa [List.reverse_reverse] at h2

/-- `strip` returns a contiguous segment of its input. -/
theorem pyStrip_sub (s : List Char) : pyStrip s <:+: s := by
  obtain ⟨t, ht⟩ := pyStrip_front s
  obtain ⟨u, hu⟩ := List.dropWhile_suffix (l := s) fun c => isWs c
  exact ⟨u, t, by rw [List.append_assoc, ht, hu]⟩

/-- C10: `clean_text` output contains no newline, has no two adjacent
whitespace characters, and neither starts nor ends with whitespace: the final
`\s+ → ' '` pass replaces every whitespace run (including the double newlines
the `\n{3,}` pass preserves) with a single space, and `strip` removes the
boundary whitespace. -/
theorem clean_text_spec (s : List Char) :
    '\n' ∉ clean_text s ∧
    List.Chain' (fun a b => isWs a = false ∨ isWs b = false) (clean_text s) ∧
    (∀ c, (clean_text s).head? = some c → isWs c = false) ∧
    (∀ c, (clean_text s).getLast? = some c → isWs c = false) := by
  have hseg : clean_text s <:+: collapseWs (collapseNl (replaceCr s)) :=
    pyStrip_sub _
  refine ⟨?_, ?_, ?_, ?_⟩
  · intro hmem
    have hmem2 : '\n' ∈ collapseWs (collapseNl (replaceCr s)) :=
      hseg.sublist.mem hmem
    rcases mem_collapseWsAux false _ '\n' hmem2 with h | h
    · exact absurd h (by decide)
    · exact absurd h (by decide)
  · exact List.Chain'.infix (chain'_collapseWsAux false _) hseg
  · intro c hc
    obtain ⟨t, ht⟩ := pyStrip_front (collapseWs (collapseNl (replaceCr s)))
    have hc' : (pyStrip (collapseWs (collapseNl (replaceCr s)))).head? =
        some c := hc
    have hm : ((collapseWs (collapseNl (replaceCr s))).dropWhile
        fun c => isWs c).head? = some c := by
      rw [← ht, List.head?_append, hc']; rfl
    exact head?_dropWhile_not _ _ c hm
  · intro c hc
    have hrev : (clean_text s).reverse =
        ((collapseWs (collapseNl (replaceCr s))).dropWhile
          fun c => isWs c).reverse.dropWhile fun c => isWs c := by
      simp [clean_text, pyStrip]
    have hc2 : ((clean_text s).reverse).head? = some c := by
      rwa [List.head?_reverse]
    rw [hrev] at hc2
    exact head?_dropWhile_not _ _ c hc2

theorem clean_text_spec_witness :
    '\n' ∉ clean_text ("  a\n\n\n\nb\tc ".toList) ∧
    List.Chain' (fun a b => isWs a = false ∨ isWs b = false)
      (clean_text ("  a\n\n\n\nb\tc ".toList)) ∧
    (∀ c, (clean_text ("  a\n\n\n\nb\tc ".toList)).head? = some c →
      isWs c = false) ∧
    (∀ c, (clean_text ("  a\n\n\n\nb\tc ".toList)).getLast? = some c →
      isWs c = false) :=
  clean_text_spec ("  a\n\n\n\nb\tc ".toList)

/-! ## EmbeddingProvider — `src/embedder.py` (legacy) and
`src/jls_chatbot/core/embedder.py` (core)

Both variants normalize with `embeddings / (norms + 1e-10)` where
`norms = np.linalg.norm(embeddings, axis=1)`.  The backend call
(`client.models.embed_content` resp. `genai.embed_content`) is modelled as a
function parameter `b`; since the L2 norm of a rational vector is irrational
in general, the exact value `np.linalg.norm` computes is supplied as a
parameter `nrm`, constrained in the theorems by `nrm v * nrm v = normSq v`
and `0 ≤ nrm v`.  The second component of each result counts how many times
the embedding backend was invoked by the call. -/

/-- The `1e-10` epsilon added to the norm before dividing. -/
def eps : ℚ := 1 / 10 ^ 10

/-- Squared L2 norm of a vector. -/
def normSq (v : List ℚ) : ℚ := (v.map fun x => x * x).sum

/-- One row of `embeddings / (norms + 1e-10)`: divide every component by
`r + 1e-10`, where `r` is the row's L2 norm. -/
def normalizeRow (r : ℚ) (v : List ℚ) : List ℚ := v.map fun x => x / (r + eps)

/-- `_embed_and_normalize` of `src/embedder.py`: an empty batch short-circuits
to an empty array with no backend call; otherwise the backend is called once
on the whole batch and every returned row is normalized. -/
def srcEmbedAndNormalize (nrm : List ℚ → ℚ)
    (b : List (List Char) → List (List ℚ)) (texts : List (List Char)) :
    List (List ℚ) × Nat :=
  if texts.isEmpty then ([], 0)
  else ((b texts).map fun v => normalizeRow (nrm v) v, 1)

/-- `embed_documents` of `src/embedder.py` (it delegates directly, with no
guard of its own). -/
def srcEmbedDocuments (nrm : List ℚ → ℚ)
    (b : List (List Char) → List (List ℚ)) (texts : List (List Char)) :
    List (List ℚ) × Nat :=
  srcEmbedAndNormalize nrm b texts

/-- `embed_query` of `src/embedder.py`:
`_embed_and_normalize([text])` followed by `arr[0]` — note there is no guard
for the empty string, `[text]` is a non-empty batch even when `text` is empty. -/
def srcEmbedQuery (nrm : List ℚ → ℚ) (b : List (List Char) → List (List ℚ))
    (t : List Char) : List ℚ × Nat :=
  ((srcEmbedAndNormalize nrm b [t]).1.getD 0 [],
   (srcEmbedAndNormalize nrm b [t]).2)

/-- `_embed_and_normalize` of `src/jls_chatbot/core/embedder.py` on a
non-empty batch (its callers below guard the empty cases before reaching the
backend). -/
def coreEmbedBase (nrm : List ℚ → ℚ) (b : List (List Char) → List (List ℚ))
    (texts : List (List Char)) : List (List ℚ) × Nat :=
  ((b texts).map fun v => normalizeRow (nrm v) v, 1)

/-- `embed_documents` of the core embedder: `if not texts: return []`. -/
def coreEmbedDocuments (nrm : List ℚ → ℚ)
    (b : List (List Char) → List (List ℚ)) (texts : List (List Char)) :
    List (List ℚ) × Nat :=
  if texts.isEmpty then ([], 0) else coreEmbedBase nrm b texts

/-- `embed_query` of the core embedder: `if not text: return []`, otherwise
embed the singleton batch and return its first row. -/
def coreEmbedQuery (nrm : List ℚ → ℚ) (b : List (List Char) → List (List ℚ))
    (t : List Char) : List ℚ × Nat :=
  if t.isEmpty then ([], 0)
  else ((coreEmbedBase nrm b [t]).1.getD 0 [], (coreEmbedBase nrm b [t]).2)

theorem normSq_nil : normSq [] = 0 := rfl

theorem normSq_cons (x : ℚ) (l : List ℚ) :
    normSq (x :: l) = x * x + normSq l := by
  simp [normSq]

/-- Dividing every component by `c` divides the squared norm by `c²`
(unconditionally — `ℚ` division by zero is zero on both sides). -/
theorem normSq_map_div (v : List ℚ) (c : ℚ) :
    normSq (v.map fun x => x / c) = normSq v / c ^ 2 := by
  induction v with
  | nil => simp [normSq]
  | cons x xs ih =>
    rw [List.map_cons, normSq_cons, normSq_cons, ih, div_mul_div_comm, sq,
      div_add_div_same]

theorem normSq_normalizeRow (r : ℚ) (v : List ℚ) :
    normSq (normalizeRow r v) = normSq v / (r + eps) ^ 2 :=
  normSq_map_div v (r + eps)

/-- Core numeric fact: if `r` is the exact L2 norm of `v` and `r ≥ 1e-4`,
the squared norm of `v / (r + 1e-10)` lies in `[(1 - 1e-6)², 1]`, i.e. the
norm is within `1e-6` of `1`. -/
theorem normalizeRow_normSq_bounds (v : List ℚ) (r : ℚ) (h0 : 0 ≤ r)
    (hr : r * r = normSq v) (hbig : 1 / 10 ^ 4 ≤ r) :
    (1 - 1 / 10 ^ 6) ^ 2 ≤ normSq (normalizeRow r v) ∧
      normSq (normalizeRow r v) ≤ 1 := by
  rw [normSq_normalizeRow, ← hr]
  have hre : (0 : ℚ) < r + eps := by unfold eps; positivity
  constructor
  · rw [le_div_iff₀ (by positivity)]
    have h2 : (1 - 1 / 10 ^ 6) * (r + eps) ≤ r := by unfold eps at *; linarith
    have h1 : (0 : ℚ) ≤ (1 - 1 / 10 ^ 6) * (r + eps) :=
      mul_nonneg (by norm_num) (le_of_lt hre)
    calc (1 - 1 / 10 ^ 6) ^ 2 * (r + eps) ^ 2
        = ((1 - 1 / 10 ^ 6) * (r + eps)) ^ 2 := by ring
      _ ≤ r ^ 2 := by exact pow_le_pow_left₀ h1 h2 2
      _ = r * r := sq r
  · rw [div_le_one (by positivity)]
    have hle : r ≤ r + eps := by unfold eps; linarith
    calc r * r ≤ (r + eps) * (r + eps) := mul_le_mul hle hle h0 (le_of_lt hre)
      _ = (r + eps) ^ 2 := (sq (r + eps)).symm

/-- C5 (amended): every vector returned by `embed_documents` of either
provider variant has L2 norm within `1e-6` of `1.0`, provided the raw backend
vector's L2 norm is at least `1e-4` (the division is by `‖v‖ + 1e-10`, so
vectors of tiny positive norm land strictly away from the unit sphere —
see `embedder_tiny_norm_not_unit`). -/
theorem embedder_normalized_bounds (nrm : List ℚ → ℚ)
    (b : List (List Char) → List (List ℚ)) (texts : List (List Char))
    (w : List ℚ)
    (hnrm : ∀ v ∈ b texts,
      0 ≤ nrm v ∧ nrm v * nrm v = normSq v ∧ 1 / 10 ^ 4 ≤ nrm v) :
    (w ∈ (srcEmbedDocuments nrm b texts).1 →
      (1 - 1 / 10 ^ 6) ^ 2 ≤ normSq w ∧ normSq w ≤ 1) ∧
    (w ∈ (coreEmbedDocuments nrm b texts).1 →
      (1 - 1 / 10 ^ 6) ^ 2 ≤ normSq w ∧ normSq w ≤ 1) := by
  have key : w ∈ (b texts).map (fun v => normalizeRow (nrm v) v) →
      (1 - 1 / 10 ^ 6) ^ 2 ≤ normSq w ∧ normSq w ≤ 1 := by
    intro hw
    obtain ⟨v, hv, rfl⟩ := List.mem_map.mp hw
    obtain ⟨h0, hr, hbig⟩ := hnrm v hv
    exact normalizeRow_normSq_bounds v (nrm v) h0 hr hbig
  constructor
  · intro hw
    unfold srcEmbedDocuments srcEmbedAndNormalize at hw
    by_cases he : texts.isEmpty
    · rw [if_pos he] at hw; simp at hw
    · rw [if_neg he] at hw; exact key hw
  · intro hw
    unfold coreEmbedDocuments coreEmbedBase at hw
    by_cases he : texts.isEmpty
    · rw [if_pos he] at hw; simp at hw
    · rw [if_neg he] at hw; exact key hw

/-- A backend that answers every text with the vector `[1e-4]` (whose exact
L2 norm is `1e-4`, the boundary of the amended guarantee). -/
def c5okBackend : List (List Char) → List (List ℚ) :=
  fun ts => ts.map fun _ => [1 / 10 ^ 4]

def c5okNrm : List ℚ → ℚ := fun _ => 1 / 10 ^ 4

theorem c5okBackend_norms : ∀ v ∈ c5okBackend [['x']],
    0 ≤ c5okNrm v ∧ c5okNrm v * c5okNrm v = normSq v ∧
      1 / 10 ^ 4 ≤ c5okNrm v := by
  intro v hv
  simp only [c5okBackend, List.map_cons, List.map_nil, List.mem_singleton] at hv
  subst hv
  refine ⟨by norm_num [c5okNrm], ?_, by norm_num [c5okNrm]⟩
  simp only [c5okNrm, normSq, List.map_cons, List.map_nil, List.sum_cons,
    List.sum_nil]
  norm_num

theorem embedder_normalized_bounds_witness :
    (∀ v ∈ c5okBackend [['x']],
      0 ≤ c5okNrm v ∧ c5okNrm v * c5okNrm v = normSq v ∧
        1 / 10 ^ 4 ≤ c5okNrm v) ∧
    ((normalizeRow (c5okNrm [1 / 10 ^ 4]) [(1 : ℚ) / 10 ^ 4] ∈
        (srcEmbedDocuments c5okNrm c5okBackend [['x']]).1 →
      (1 - 1 / 10 ^ 6) ^ 2 ≤
          normSq (normalizeRow (c5okNrm [1 / 10 ^ 4]) [(1 : ℚ) / 10 ^ 4]) ∧
        normSq (normalizeRow (c5okNrm [1 / 10 ^ 4]) [(1 : ℚ) / 10 ^ 4]) ≤ 1) ∧
    (normalizeRow (c5okNrm [1 / 10 ^ 4]) [(1 : ℚ) / 10 ^ 4] ∈
        (coreEmbedDocuments c5okNrm c5okBackend [['x']]).1 →
      (1 - 1 / 10 ^ 6) ^ 2 ≤
          normSq (normalizeRow (c5okNrm [1 / 10 ^ 4]) [(1 : ℚ) / 10 ^ 4]) ∧
        normSq (normalizeRow (c5okNrm [1 / 10 ^ 4]) [(1 : ℚ) / 10 ^ 4]) ≤ 1)) :=
  ⟨c5okBackend_norms,
   embedder_normalized_bounds c5okNrm c5okBackend [['x']]
     (normalizeRow (c5okNrm [1 / 10 ^ 4]) [(1 : ℚ) / 10 ^ 4]) c5okBackend_norms⟩

/-- A backend answering every text with the vector `[1e-10]`: not all-zero,
exact norm `1e-10`. -/
def c5tinyBackend : List (List Char) → List (List ℚ) :=
  fun ts => ts.map fun _ => [1 / 10 ^ 10]

def c5tinyNrm : List ℚ → ℚ := fun _ => 1 / 10 ^ 10

/-- C5 (counterexample to the claim as stated): the backend vector `[1e-10]`
is not the all-zero vector, `1e-10` is its exact L2 norm, yet the vector
`embed_query` returns for it is `[1/2]` — squared norm `1/4`, nowhere near
within `1e-6` of `1` — because the code divides by `‖v‖ + 1e-10 = 2e-10`. -/
theorem embedder_tiny_norm_not_unit :
    c5tinyNrm [(1 : ℚ) / 10 ^ 10] * c5tinyNrm [(1 : ℚ) / 10 ^ 10] =
      normSq [(1 : ℚ) / 10 ^ 10] ∧
    ([(1 : ℚ) / 10 ^ 10] ≠ ([0] : List ℚ)) ∧
    (srcEmbedQuery c5tinyNrm c5tinyBackend ['x']).1 = [(1 : ℚ) / 2] ∧
    normSq ((srcEmbedQuery c5tinyNrm c5tinyBackend ['x']).1) = 1 / 4 ∧
    ¬ (1 - 1 / 10 ^ 6 : ℚ) ^ 2 ≤ 1 / 4 := by
  refine ⟨?_, by norm_num, ?_, ?_, by norm_num⟩
  · simp only [c5tinyNrm, normSq, List.map_cons, List.map_nil, List.sum_cons,
      List.sum_nil]
    norm_num
  · simp only [srcEmbedQuery, srcEmbedAndNormalize, c5tinyBackend, c5tinyNrm,
      normalizeRow, eps, List.map_cons, List.map_nil, List.isEmpty_cons,
      Bool.false_eq_true, if_false, List.getD_cons_zero]
    norm_num
  · simp only [srcEmbedQuery, srcEmbedAndNormalize, c5tinyBackend, c5tinyNrm,
      normalizeRow, eps, normSq, List.map_cons, List.map_nil,
      List.isEmpty_cons, Bool.false_eq_true, if_false, List.getD_cons_zero,
      List.sum_cons, List.sum_nil]
    norm_num

/-- A backend whose (single) answer row is `[3, 4]`, exact norm `5`. -/
def c9backend : List (List Char) → List (List ℚ) :=
  fun ts => ts.map fun _ => [3, 4]

def c9nrm : List ℚ → ℚ := fun _ => 5

/-- C9 (counterexample to the claim as stated): passing the empty string to
the legacy provider's `embed_query` invokes the backend once (on the batch
`[""]`, which is non-empty) and returns a full normalized vector, not an
empty sequence. -/
theorem srcEmbedQuery_empty_string_calls_backend :
    c9nrm [3, 4] * c9nrm [3, 4] = normSq [(3 : ℚ), 4] ∧
    (srcEmbedQuery c9nrm c9backend []).2 = 1 ∧
    (srcEmbedQuery c9nrm c9backend []).1 ≠ [] := by
  refine ⟨?_, rfl, ?_⟩
  · simp only [c9nrm, normSq, List.map_cons, List.map_nil, List.sum_cons,
      List.sum_nil]
    norm_num
  · simp [srcEmbedQuery, srcEmbedAndNormalize, c9backend, c9nrm, normalizeRow]

/-- C9 (amended): an empty batch passed to `embed_documents` returns an
empty sequence with zero backend calls in both provider variants, and an
empty query string short-circuits in the core provider's `embed_query`; but
the legacy provider's `embed_query` performs one backend call even on the
empty string.  Quantifying over `b` shows no part of the short-circuiting
results depends on the backend. -/
theorem embed_empty_inputs (nrm : List ℚ → ℚ)
    (b : List (List Char) → List (List ℚ)) :
    srcEmbedDocuments nrm b [] = ([], 0) ∧
    coreEmbedDocuments nrm b [] = ([], 0) ∧
    coreEmbedQuery nrm b [] = ([], 0) ∧
    (srcEmbedQuery nrm b []).2 = 1 :=
  ⟨rfl, rfl, rfl, rfl⟩

theorem embed_empty_inputs_witness :
    srcEmbedDocuments c9nrm c9backend [] = ([], 0) ∧
    coreEmbedDocuments c9nrm c9backend [] = ([], 0) ∧
    coreEmbedQuery c9nrm c9backend [] = ([], 0) ∧
    (srcEmbedQuery c9nrm c9backend []).2 = 1 :=
  embed_empty_inputs c9nrm c9backend

/-! ## AnswerComposer citation snippets — `answer_query`

Core variant (`src/jls_chatbot/core/rag_chain.py`):
`"snippet": md.get("original_text", "")[:350].replace("\n", " ") + "..."`.

Legacy variant (`src/rag_chain.py`):
`"snippet": doc.page_content[:300].replace("\n", " ")`.
-/

/-- `.replace("\n", " ")`. -/
def nlToSpace (s : List Char) : List Char :=
  s.map fun c => if c = '\n' then ' ' else c

/-- Core-variant snippet: first 350 characters, newlines to spaces, ellipsis
appended unconditionally. -/
def snippetCore (originalText : List Char) : List Char :=
  nlToSpace (originalText.take 350) ++ ['.', '.', '.']

/-- Legacy-variant snippet: first 300 characters, newlines to spaces, no
ellipsis ever. -/
def snippetLegacy (pageContent : List Char) : List Char :=
  nlToSpace (pageContent.take 300)

/-- Terminal sentence punctuation, as the spec's "terminal punctuation". -/
def isTerminalPunct (c : Char) : Bool := c = '.' || c = '!' || c = '?'

/-- Modelled from the spec: the snippet rule the claim states — truncate,
collapse newlines, and append the ellipsis marker if and only if the result
does not already end in terminal punctuation.  Stated only to compare the
code's snippet against it. -/
def snippetSpec (limit : Nat) (text : List Char) : List Char :=
  let t := nlToSpace (text.take limit)
  match t.getLast? with
  | some c => if isTerminalPunct c then t else t ++ ['.', '.', '.']
  | none => t ++ ['.', '.', '.']

/-- C3 (counterexample to the claim as stated): for the passage text
`"Done."` — shorter than the truncation limit and ending in terminal
punctuation — the spec's rule yields `"Done."` unchanged, but the core
variant appends the ellipsis anyway (`"Done...."`), and the legacy variant
never appends one even for text cut mid-sentence. -/
theorem snippet_ne_spec_rule :
    snippetCore ("Done.".toList) ≠ snippetSpec 350 ("Done.".toList) ∧
    snippetLegacy ("He said that the".toList) ≠
      snippetSpec 300 ("He said that the".toList) := by
  refine ⟨by decide, by decide⟩

/-- No newline survives the replacement pass. -/
theorem nl_not_mem_nlToSpace (s : List Char) : '\n' ∉ nlToSpace s := by
  intro h
  obtain ⟨c, _, hc⟩ := List.mem_map.mp h
  by_cases h' : c = '\n'
  · rw [if_pos h'] at hc; exact absurd hc (by decide)
  · rw [if_neg h'] at hc; exact h' hc

/-- C3 (amended): each citation snippet is the cited passage's original text
truncated to a fixed length (350 characters in the core variant, 300 in the
legacy variant) with embedded newlines replaced by spaces, and contains no
newline; the core variant appends the ellipsis marker unconditionally and the
legacy variant never appends it — neither variant inspects terminal
punctuation. -/
theorem snippet_spec_amended (text : List Char) :
    snippetCore text = nlToSpace (text.take 350) ++ ['.', '.', '.'] ∧
    snippetLegacy text = nlToSpace (text.take 300) ∧
    '\n' ∉ snippetCore text ∧
    '\n' ∉ snippetLegacy text := by
  refine ⟨rfl, rfl, ?_, nl_not_mem_nlToSpace _⟩
  intro h
  rcases List.mem_append.mp h with h | h
  · exact nl_not_mem_nlToSpace _ h
  · simp at h

theorem snippet_spec_amended_witness :
    snippetCore ("A\nB.".toList) =
        nlToSpace (("A\nB.".toList).take 350) ++ ['.', '.', '.'] ∧
    snippetLegacy ("A\nB.".toList) = nlToSpace (("A\nB.".toList).take 300) ∧
    '\n' ∉ snippetCore ("A\nB.".toList) ∧
    '\n' ∉ snippetLegacy ("A\nB.".toList) :=
  snippet_spec_amended ("A\nB.".toList)

/-! ## Retriever — `retrieve` from `src/qa_chain.py`

```python
def retrieve(query: str, embedder, top_k=5):
    index, meta = load_index_and_meta()
    qvec = embed_query_with_provider(query, embedder).reshape(1, -1)
    D, I = index.search(qvec, top_k)
    results = []
    for score, idx in zip(D[0], I[0]):
        if idx < 0:
            continue
        meta_item = meta[idx]
        results.append({"score": float(score), "metadata": meta_item})
    return results
```

The index is a `faiss.IndexFlatIP` (built in `src/vectorstore.py`): exact
inner-product search over all stored vectors.  `faissSearch` models FAISS's
documented `search` contract: the `k` result slots are filled with the stored
vectors in order of decreasing inner product with the query, and when the
index holds fewer than `k` vectors the remaining slots are padded with
index `-1` (the padding score slot is irrelevant and modelled as `0`). -/

/-- Inner product of two vectors. -/
def dot (q v : List ℚ) : ℚ := (List.zipWith (· * ·) q v).sum

/-- Insert into a list sorted by decreasing score (ties by ascending stored
index, matching the deterministic order of a flat FAISS scan). -/
def insertDesc (x : ℚ × Int) : List (ℚ × Int) → List (ℚ × Int)
  | [] => [x]
  | y :: ys =>
    if x.1 > y.1 || (x.1 = y.1 && x.2 ≤ y.2) then x :: y :: ys
    else y :: insertDesc x ys

/-- Sort score/index pairs by decreasing score. -/
def sortDesc : List (ℚ × Int) → List (ℚ × Int)
  | [] => []
  | x :: xs => insertDesc x (sortDesc xs)

/-- Model of `faiss.IndexFlatIP.search(qvec, k)`: score every stored vector
by inner product with the query, order by decreasing score, return the first
`k` slots, padding with index `-1` when the index holds fewer than `k`
vectors. -/
def faissSearch (xs : List (List ℚ)) (q : List ℚ) (k : Nat) :
    List (ℚ × Int) :=
  (sortDesc ((xs.enum).map fun p => (dot q p.2, (p.1 : Int)))).take k ++
    List.replicate (k - xs.length) (0, -1)

/-- `retrieve`: zip through the `k` returned slots, skip padding slots
(`idx < 0`), and attach the metadata entry of each real hit. -/
def retrieve {M : Type} [Inhabited M] (xs : List (List ℚ)) (meta : List M)
    (q : List ℚ) (top_k : Nat) : List (ℚ × M) :=
  (faissSearch xs q top_k).filterMap fun p =>
    if p.2 < 0 then none else some (p.1, meta.getD p.2.toNat default)

theorem length_insertDesc (x : ℚ × Int) (l : List (ℚ × Int)) :
    (insertDesc x l).length = l.length + 1 := by
  induction l with
  | nil => rfl
  | cons y ys ih =>
    rw [insertDesc]
    by_cases h : x.1 > y.1 || (x.1 = y.1 && x.2 ≤ y.2)
    · rw [if_pos h]; rfl
    · rw [if_neg h]; simp [ih]

theorem length_sortDesc (l : List (ℚ × Int)) :
    (sortDesc l).length = l.length := by
  induction l with
  | nil => rfl
  | cons x xs ih => rw [sortDesc, length_insertDesc, ih]; rfl

theorem mem_insertDesc (x y : ℚ × Int) (l : List (ℚ × Int)) :
    y ∈ insertDesc x l → y = x ∨ y ∈ l := by
  induction l with
  | nil => intro h; simp [insertDesc] at h; exact Or.inl h
  | cons z zs ih =>
    intro h
    rw [insertDesc] at h
    by_cases hc : x.1 > z.1 || (x.1 = z.1 && x.2 ≤ z.2)
    · rw [if_pos hc] at h
      rcases List.mem_cons.mp h with h | h
      · exact Or.inl h
      · exact Or.inr h
    · rw [if_neg hc] at h
      rcases List.mem_cons.mp h with h | h
      · exact Or.inr (List.mem_cons.mpr (Or.inl h))
      · rcases ih h with h | h
        · exact Or.inl h
        · exact Or.inr (List.mem_cons.mpr (Or.inr h))

theorem mem_sortDesc (y : ℚ × Int) (l : List (ℚ × Int)) :
    y ∈ sortDesc l → y ∈ l := by
  induction l with
  | nil => intro h; simp [sortDesc] at h
  | cons x xs ih =>
    intro h
    rw [sortDesc] at h
    rcases mem_insertDesc x y (sortDesc xs) h with h | h
    · exact List.mem_cons.mpr (Or.inl h)
    · exact List.mem_cons.mpr (Or.inr (ih h))

/-- Every slot produced by the sorted scan carries a real (nonnegative)
stored index. -/
theorem sortDesc_snd_nonneg (xs : List (List ℚ)) (q : List ℚ)
    (y : ℚ × Int)
    (hy : y ∈ sortDesc ((xs.enum).map fun p => (dot q p.2, (p.1 : Int)))) :
    0 ≤ y.2 := by
  have hm := mem_sortDesc _ _ hy
  obtain ⟨p, _, hp⟩ := List.mem_map.mp hm
  rw [← hp]
  exact Int.ofNat_nonneg p.1

/-- Padding slots (`idx = -1`) are always skipped by the loop. -/
theorem filterMap_pad {M : Type} [Inhabited M] (meta : List M) (n : Nat) :
    (List.replicate n ((0 : ℚ), (-1 : Int))).filterMap
      (fun p => if p.2 < 0 then none
        else some (p.1, meta.getD p.2.toNat default)) = [] := by
  induction n with
  | zero => rfl
  | succ m ih =>
    rw [List.replicate_succ, List.filterMap_cons, if_pos (by decide)]
    exact ih

/-- Slots with a nonnegative index always survive the loop's filter. -/
theorem filterMap_full {M : Type} [Inhabited M] (meta : List M)
    (l : List (ℚ × Int)) (hall : ∀ y ∈ l, ¬ y.2 < 0) :
    (l.filterMap fun p => if p.2 < 0 then none
      else some (p.1, meta.getD p.2.toNat default)).length = l.length := by
  induction l with
  | nil => rfl
  | cons a t ih =>
    rw [List.filterMap_cons, if_neg (hall a (List.mem_cons_self a t))]
    simp only [List.length_cons]
    rw [ih fun y hy => hall y (List.mem_cons.mpr (Or.inr hy))]

/-- C4: for every stored-vector list, metadata list, query and `k ≥ 1`,
`retrieve` returns exactly `min n k` results — each real slot survives the
`idx < 0` filter, each padding slot is skipped — and on an empty index it
returns the empty list rather than failing. -/
theorem retrieve_length {M : Type} [Inhabited M] (xs : List (List ℚ))
    (meta : List M) (q : List ℚ) (k : Nat) (_hk : 1 ≤ k) :
    (retrieve xs meta q k).length = min xs.length k ∧
    (xs = [] → retrieve xs meta q k = []) := by
  have hall : ∀ y ∈ (sortDesc ((xs.enum).map
      fun p => (dot q p.2, (p.1 : Int)))).take k, ¬ y.2 < 0 := by
    intro y hy
    have := sortDesc_snd_nonneg xs q y (List.mem_of_mem_take hy)
    omega
  constructor
  · unfold retrieve faissSearch
    rw [List.filterMap_append, filterMap_pad, List.append_nil,
      filterMap_full meta _ hall, List.length_take, length_sortDesc,
      List.length_map, List.enum_length, Nat.min_comm]
  · intro h
    subst h
    unfold retrieve faissSearch
    simp only [List.enum_nil, List.map_nil, sortDesc, List.take_nil,
      List.nil_append, List.length_nil, Nat.sub_zero]
    exact filterMap_pad meta k

theorem retrieve_length_witness :
    1 ≤ 5 ∧
    ((retrieve [[(1 : ℚ)], [(0 : ℚ)]] ["m0", "m1"] [(1 : ℚ)] 5).length =
        min ([[(1 : ℚ)], [(0 : ℚ)]].length) 5 ∧
      ([[(1 : ℚ)], [(0 : ℚ)]] = ([] : List (List ℚ)) →
        retrieve [[(1 : ℚ)], [(0 : ℚ)]] ["m0", "m1"] [(1 : ℚ)] 5 = [])) :=
  ⟨by decide, retrieve_length [[(1 : ℚ)], [(0 : ℚ)]] ["m0", "m1"] [(1 : ℚ)] 5
    (by decide)⟩

/-! ## IndexLifecycleManager — `build_or_load_vectorstore` from
`src/rag_chain.py`

Control flow of the source, in order:
1. missing `GEMINI_API_KEY` → fatal `ValueError`;
2. create the query embedder (local helper, falling back to
   `GoogleGenerativeAIEmbeddings`; both failing → fatal `RuntimeError`);
3. if `faiss_index_path.exists() and not force_rebuild` →
   `FAISS.load_local(...)` and **return immediately** (no further checks);
4. otherwise (build path): missing `chunks.jsonl` or `embeddings.npy` →
   fatal `FileNotFoundError`;
5. `len(texts) != precomputed_vectors.shape[0]` → fatal `ValueError`,
   raised before anything is constructed or saved;
6. one live `embed_query("sanity-check")` call; its dimensionality must
   equal the stored corpus dimensionality `d`, else fatal;
7. `FAISS.from_embeddings(...)`, `save_local(...)`, return the new store.

The store itself (a FAISS flat index plus docstore) is modelled as the list
of (text, vector) pairs `from_embeddings` receives; the per-text
`{"source", "page"}` metadata dict travels alongside the text in the real
store and is elided here as none of the checked properties touch it. -/

/-- The vector store: texts paired with their embedding rows. -/
structure FaissStore where
  entries : List (String × List ℚ)
deriving DecidableEq

/-- The fatal conditions `build_or_load_vectorstore` can raise, in source
order. -/
inductive BOLError where
  | missingApiKey : BOLError
  | noQueryEmbedder : BOLError
  | missingSource : BOLError
  | countMismatch (nTexts nVecs : Nat) : BOLError
  | queryEmbedFailed : BOLError
  | dimMismatch (storedDim liveDim : Nat) : BOLError
deriving DecidableEq

/-- Environment and filesystem state the function reads. -/
structure BOLInput where
  apiKeyPresent : Bool
  embedderAvailable : Bool
  indexOnDisk : Option FaissStore
  forceRebuild : Bool
  chunksFile : Option (List String)
  embeddingsFile : Option (List (List ℚ))
  queryEmbed : Option Nat

/-- What one call performs: its return value or fatal error, how many live
query embeddings it computed, and every store it persisted with
`save_local`. -/
structure BOLOutcome where
  result : Except BOLError FaissStore
  queryEmbedCalls : Nat
  savedStores : List FaissStore

/-- Shallow embedding of `build_or_load_vectorstore(force_rebuild)`. -/
def build_or_load_vectorstore (inp : BOLInput) : BOLOutcome :=
  if !inp.apiKeyPresent then ⟨.error .missingApiKey, 0, []⟩
  else if !inp.embedderAvailable then ⟨.error .noQueryEmbedder, 0, []⟩
  else
    match inp.indexOnDisk, inp.forceRebuild with
    | some st, false => ⟨.ok st, 0, []⟩
    | _, _ =>
      match inp.chunksFile, inp.embeddingsFile with
      | none, _ => ⟨.error .missingSource, 0, []⟩
      | _, none => ⟨.error .missingSource, 0, []⟩
      | some texts, some vecs =>
        if texts.length ≠ vecs.length then
          ⟨.error (.countMismatch texts.length vecs.length), 0, []⟩
        else
          match inp.queryEmbed with
          | none => ⟨.error .queryEmbedFailed, 1, []⟩
          | some qd =>
            if qd ≠ (vecs.headD []).length then
              ⟨.error (.dimMismatch (vecs.headD []).length qd), 1, []⟩
            else
              ⟨.ok ⟨texts.zip vecs⟩, 1, [⟨texts.zip vecs⟩]⟩

/-- A persisted index whose stored vectors have dimensionality 3. -/
def storedDim3 : FaissStore := ⟨[("t0", [1, 0, 0])]⟩

/-- C2 (counterexample to the claim as stated): with a persisted index on
disk (stored dimensionality 3), `force_rebuild = False`, and a live query
embedder of dimensionality 4, the load path returns the loaded store as-is:
zero live query embeddings are computed and no error is raised, despite the
mismatch.  The dimension-consistency check exists only on the build path. -/
theorem load_path_skips_dim_check :
    build_or_load_vectorstore
      ⟨true, true, some storedDim3, false, some ["t0"],
        some [[1, 0, 0]], some 4⟩ =
      ⟨.ok storedDim3, 0, []⟩ := by
  rfl

/-- C2 (amended): the dimension-consistency check runs only when building.
Loading an existing persisted index (present on disk, `force_rebuild` false)
returns it with zero live query embeddings and no check of any kind; on the
build path — after the source files are read and the count check passes —
exactly one live query embedding is computed and a dimensionality mismatch
with the stored corpus is fatal, never coerced. -/
theorem dim_check_on_build_path_only (inp : BOLInput) (st : FaissStore)
    (texts : List String) (vecs : List (List ℚ)) (qd : Nat)
    (hkey : inp.apiKeyPresent = true) (hemb : inp.embedderAvailable = true) :
    (inp.indexOnDisk = some st → inp.forceRebuild = false →
      build_or_load_vectorstore inp = ⟨.ok st, 0, []⟩) ∧
    (inp.indexOnDisk = none →
      inp.chunksFile = some texts → inp.embeddingsFile = some vecs →
      texts.length = vecs.length → inp.queryEmbed = some qd →
      qd ≠ (vecs.headD []).length →
      build_or_load_vectorstore inp =
        ⟨.error (.dimMismatch (vecs.headD []).length qd), 1, []⟩) := by
  constructor
  · intro hdisk hforce
    unfold build_or_load_vectorstore
    rw [hkey, hemb, hdisk, hforce]
    rfl
  · intro hdisk hchunks hembf hcount hq hdim
    unfold build_or_load_vectorstore
    rw [hkey, hemb, hdisk, hchunks, hembf, hq]
    simp only [List.headD_eq_head?_getD] at hdim
    simp [hcount, hdim]

theorem dim_check_on_build_path_only_witness :
    (build_or_load_vectorstore
        ⟨true, true, some storedDim3, false, some ["t0"],
          some [[1, 0, 0]], some 4⟩ =
      ⟨.ok storedDim3, 0, []⟩) ∧
    (build_or_load_vectorstore
        ⟨true, true, none, false, some ["t0"], some [[1, 0, 0]], some 4⟩ =
      ⟨.error (.dimMismatch ([[(1 : ℚ), 0, 0]].headD []).length 4), 1, []⟩) :=
  ⟨(dim_check_on_build_path_only
      ⟨true, true, some storedDim3, false, some ["t0"],
        some [[1, 0, 0]], some 4⟩
      storedDim3 ["t0"] [[1, 0, 0]] 4 rfl rfl).1 rfl rfl,
   (dim_check_on_build_path_only
      ⟨true, true, none, false, some ["t0"], some [[1, 0, 0]], some 4⟩
      storedDim3 ["t0"] [[1, 0, 0]] 4 rfl rfl).2 rfl rfl rfl rfl rfl
      (by decide)⟩

/-- C6: on the build path, a count mismatch between the chunk texts and the
precomputed embedding rows is fatal and is raised before anything is built
or persisted (`savedStores = []`, and the live query embedding of step 6 is
never reached); when the counts agree the build proceeds past this check —
whatever happens later, the result is never the count-mismatch error. -/
theorem build_count_mismatch_fatal (inp : BOLInput)
    (texts : List String) (vecs : List (List ℚ))
    (hkey : inp.apiKeyPresent = true) (hemb : inp.embedderAvailable = true)
    (hdisk : inp.indexOnDisk = none)
    (hchunks : inp.chunksFile = some texts)
    (hembf : inp.embeddingsFile = some vecs) :
    (texts.length ≠ vecs.length →
      build_or_load_vectorstore inp =
        ⟨.error (.countMismatch texts.length vecs.length), 0, []⟩) ∧
    (texts.length = vecs.length → ∀ a b,
      (build_or_load_vectorstore inp).result ≠ .error (.countMismatch a b)) := by
  constructor
  · intro hne
    unfold build_or_load_vectorstore
    rw [hkey, hemb, hdisk, hchunks, hembf]
    simp only [Bool.not_true, Bool.false_eq_true, if_false]
    rw [if_pos hne]
  · intro heq a b
    unfold build_or_load_vectorstore
    rw [hkey, hemb, hdisk, hchunks, hembf]
    cases hq : inp.queryEmbed with
    | none => simp [heq]
    | some qd =>
      by_cases hd : qd = (vecs.headD []).length
      · simp [heq, hd]
      · simp only [List.headD_eq_head?_getD] at hd
        simp [heq, hd]

theorem build_count_mismatch_fatal_witness :
    (build_or_load_vectorstore
        ⟨true, true, none, false, some ["t0", "t1"], some [[1, 0]],
          some 2⟩ =
      ⟨.error (.countMismatch 2 1), 0, []⟩) :=
  (build_count_mismatch_fatal
    ⟨true, true, none, false, some ["t0", "t1"], some [[1, 0]], some 2⟩
    ["t0", "t1"] [[1, 0]] rfl rfl rfl rfl rfl).1 (by decide)

/-! ## Ingestion — `ingest_all` from `scripts/ingest.py`

For each PDF (in sorted filename order) and each page: clean the text, skip
blank pages, pick the first probable heading among the first five lines,
chunk the page with `chunk_text(page_text)` (defaults `1200 / 200`), and
append one metadata record per chunk with a sequential id.  After all
records are collected the texts are embedded in batches of
`EMBED_BATCH_SIZE`; an embedding failure aborts the run before any file is
written.  `chunks.jsonl` is then written from `metadata` and `all_texts`
only — its bytes never depend on the embedding output.

`clean_text` and `is_probable_heading` are imported from `src/utils.py`
(same content as `src/jls_chatbot/core/utils.py`, modelled above).
`is_probable_heading`:

```python
def is_probable_heading(line: str) -> bool:
    if len(line) < 200 and len(line.split()) <= 8:
        if line.isupper() or line.istitle():
            return True
    return False
```
-/

/-- `line.split('\n')` (keeps empty pieces, like Python `str.split(sep)`). -/
def splitNl (l : List Char) : List (List Char) :=
  l.foldr
    (fun c acc =>
      if c = '\n' then [] :: acc
      else match acc with
        | [] => [[c]]
        | h :: t => (c :: h) :: t)
    [[]]

/-- `len(line.split())`: number of maximal non-whitespace runs. -/
def wordCountAux : Bool → List Char → Nat
  | _, [] => 0
  | inWord, c :: rest =>
    if isWs c then wordCountAux false rest
    else (if inWord then 0 else 1) + wordCountAux true rest

def wordCount (l : List Char) : Nat := wordCountAux false l

/-- Python `str.isupper()` on ASCII text: at least one cased (alphabetic)
character and no lowercase one. -/
def pyIsUpper (l : List Char) : Bool :=
  (l.any fun c => c.isAlpha) && (l.all fun c => !c.isAlpha || c.isUpper)

/-- Python `str.istitle()` on ASCII text: cased characters at the start of a
cased run are uppercase, followers are lowercase, and at least one cased
character occurs. -/
def pyIsTitleAux : Bool → List Char → Bool
  | _, [] => true
  | prevCased, c :: rest =>
    if c.isAlpha then
      (if prevCased then c.isLower else c.isUpper) && pyIsTitleAux true rest
    else pyIsTitleAux false rest

def pyIsTitle (l : List Char) : Bool :=
  (l.any fun c => c.isAlpha) && pyIsTitleAux false l

def is_probable_heading (line : List Char) : Bool :=
  if line.length < 200 && wordCount line ≤ 8 then
    pyIsUpper line || pyIsTitle line
  else false

/-- The heading scan of `ingest_all`: first probable heading among the first
five lines of the cleaned page text, stripped. -/
def findHeading (pageText : List Char) : Option (List Char) :=
  (((splitNl pageText).take 5).find? fun line =>
    is_probable_heading line).map fun line => pyStrip line

/-- One line of `chunks.jsonl`: the metadata dict plus the `text_preview`
(`t[:400]`) and `text` fields added at write time. -/
structure ChunkRec where
  id : Nat
  source : List Char
  page : Nat
  heading : Option (List Char)
  charStart : Nat
  charEnd : Nat
  textPreview : List Char
  text : List Char
deriving DecidableEq

/-- Records produced for one page, ids starting at `nextId`. -/
def pageRecs (source : List Char) (pageNum nextId : Nat) (raw : List Char) :
    List ChunkRec :=
  if (pyStrip (clean_text raw)).isEmpty then []
  else
    ((chunk_text (clean_text raw) 1200 200).getD []).enum.map fun p =>
      { id := nextId + p.1, source := source, page := pageNum,
        heading := findHeading (clean_text raw),
        charStart := p.2.1, charEnd := p.2.2.1,
        textPreview := p.2.2.2.take 400, text := p.2.2.2 }

/-- Records for the pages of one document, threading the id counter. -/
def pagesRecs (source : List Char) : Nat → Nat → List (List Char) →
    List ChunkRec
  | _, _, [] => []
  | pageNum, nid, p :: ps =>
    pageRecs source pageNum nid p ++
      pagesRecs source (pageNum + 1)
        (nid + (pageRecs source pageNum nid p).length) ps

/-- Records for a list of documents, threading the id counter across
documents. -/
def docsRecs : Nat → List (List Char × List (List Char)) → List ChunkRec
  | _, [] => []
  | nid, d :: ds =>
    pagesRecs d.1 1 nid d.2 ++
      docsRecs (nid + (pagesRecs d.1 1 nid d.2).length) ds

/-- Lexicographic filename order (the order `sorted(glob(...))` yields). -/
def nameLt : List Char → List Char → Bool
  | [], [] => false
  | [], _ :: _ => true
  | _ :: _, [] => false
  | a :: as, b :: bs =>
    if a < b then true else if b < a then false else nameLt as bs

def insertDoc (x : List Char × List (List Char)) :
    List (List Char × List (List Char)) →
      List (List Char × List (List Char))
  | [] => [x]
  | y :: ys => if nameLt x.1 y.1 then x :: y :: ys else y :: insertDoc x ys

/-- `sorted(pdf_folder.glob("**/*.pdf"))`, modelled as a sort of the
document list by filename. -/
def sortDocs : List (List Char × List (List Char)) →
    List (List Char × List (List Char))
  | [] => []
  | x :: xs => insertDoc x (sortDocs xs)

/-- All `chunks.jsonl` records of one ingestion run: documents in sorted
filename order, ids assigned by the sequential counter starting at 0. -/
def ingestChunkRecs (docs : List (List Char × List (List Char))) :
    List ChunkRec :=
  docsRecs 0 (sortDocs docs)

/-- The embedding loop: texts are embedded in batches of `bs`
(`range(0, len(all_texts), batch_size)`); any failed batch aborts the whole
run (`none`).  `bs = 0` is Python's `ValueError: range() arg 3 must not be
zero`.  The fuel `texts.length` suffices because each step consumes at least
one text. -/
def batchedEmbedAux (e : List (List Char) → Option (List (List ℚ)))
    (bs : Nat) : Nat → List (List Char) → Option (List (List ℚ))
  | _, [] => some []
  | 0, _ :: _ => none
  | fuel + 1, t :: ts =>
    match e ((t :: ts).take bs) with
    | none => none
    | some emb =>
      match batchedEmbedAux e bs fuel ((t :: ts).drop bs) with
      | none => none
      | some rest => some (emb ++ rest)

def batchedEmbed (e : List (List Char) → Option (List (List ℚ)))
    (bs : Nat) (texts : List (List Char)) : Option (List (List ℚ)) :=
  if bs = 0 then none else batchedEmbedAux e bs texts.length texts

/-- `ingest_all`: collect the chunk records, abort (no files written) when no
chunks were produced or when an embedding batch fails, otherwise return the
contents of `chunks.jsonl` (the records) and `embeddings.npy` (the rows). -/
def ingest_all (e : List (List Char) → Option (List (List ℚ))) (bs : Nat)
    (docs : List (List Char × List (List Char))) :
    Option (List ChunkRec × List (List ℚ)) :=
  if (ingestChunkRecs docs).isEmpty then none
  else
    match batchedEmbed e bs ((ingestChunkRecs docs).map fun r => r.text) with
    | none => none
    | some embs => some (ingestChunkRecs docs, embs)

/-- The ids of one page's records are the consecutive block starting at
`nextId`. -/
theorem pageRecs_ids (source : List Char) (pageNum nextId : Nat)
    (raw : List Char) :
    (pageRecs source pageNum nextId raw).map (fun r => r.id) =
      List.range' nextId (pageRecs source pageNum nextId raw).length := by
  unfold pageRecs
  by_cases he : (pyStrip (clean_text raw)).isEmpty
  · rw [if_pos he]; rfl
  · rw [if_neg he]
    rw [List.map_map]
    have hcomp :
        ((fun r : ChunkRec => r.id) ∘ fun p : Nat × (Nat × Nat × List Char) =>
          ({ id := nextId + p.1, source := source, page := pageNum,
             heading := findHeading (clean_text raw),
             charStart := p.2.1, charEnd := p.2.2.1,
             textPreview := p.2.2.2.take 400, text := p.2.2.2 } : ChunkRec)) =
        ((nextId + ·) ∘ Prod.fst) := by
      funext p; rfl
    rw [hcomp, ← List.map_map, List.enum_map_fst, List.range_eq_range',
      List.map_add_range', Nat.add_zero, List.length_map, List.enum_length]

/-- The ids of one document's records are the consecutive block starting at
the incoming counter value. -/
theorem pagesRecs_ids (source : List Char) (pages : List (List Char)) :
    ∀ pageNum nid,
      (pagesRecs source pageNum nid pages).map (fun r => r.id) =
        List.range' nid (pagesRecs source pageNum nid pages).length := by
  induction pages with
  | nil => intro pageNum nid; rfl
  | cons p ps ih =>
    intro pageNum nid
    rw [pagesRecs, List.map_append, pageRecs_ids, ih, List.length_append]
    rw [List.range'_append_1, Nat.add_comm (pageRecs source pageNum nid p).length]

/-- The ids of a whole run are the consecutive block starting at the incoming
counter value. -/
theorem docsRecs_ids (ds : List (List Char × List (List Char))) :
    ∀ nid, (docsRecs nid ds).map (fun r => r.id) =
      List.range' nid (docsRecs nid ds).length := by
  induction ds with
  | nil => intro nid; rfl
  | cons d rest ih =>
    intro nid
    rw [docsRecs, List.map_append, pagesRecs_ids, ih, List.length_append]
    rw [List.range'_append_1, Nat.add_comm (pagesRecs d.1 1 nid d.2).length]

/-- C7: two successful ingestion runs over the same document set (with any
embedding backends and any batch sizes) produce identical `chunks.jsonl`
contents — the records are a pure function of the sorted corpus — and the
chunk ids are exactly `0, 1, …, n-1` in file order, independent of wall-clock
time and of whatever vectors the embedding backend returns. -/
theorem ingest_all_deterministic (docs : List (List Char × List (List Char)))
    (e₁ e₂ : List (List Char) → Option (List (List ℚ))) (b₁ b₂ : Nat)
    (r₁ r₂ : List ChunkRec × List (List ℚ))
    (h₁ : ingest_all e₁ b₁ docs = some r₁)
    (h₂ : ingest_all e₂ b₂ docs = some r₂) :
    r₁.1 = r₂.1 ∧ r₁.1.map (fun r => r.id) = List.range r₁.1.length := by
  have hfst : ∀ (e : List (List Char) → Option (List (List ℚ))) (b : Nat)
      (r : List ChunkRec × List (List ℚ)), ingest_all e b docs = some r →
      r.1 = ingestChunkRecs docs := by
    intro e b r h
    unfold ingest_all at h
    by_cases he : (ingestChunkRecs docs).isEmpty
    · rw [if_pos he] at h; exact absurd h (by simp)
    · rw [if_neg he] at h
      cases hb : batchedEmbed e b ((ingestChunkRecs docs).map fun r => r.text) with
      | none => rw [hb] at h; exact absurd h (by simp)
      | some embs =>
        rw [hb] at h
        cases h
        rfl
  have h₁' := hfst e₁ b₁ r₁ h₁
  have h₂' := hfst e₂ b₂ r₂ h₂
  refine ⟨h₁'.trans h₂'.symm, ?_⟩
  rw [h₁']
  unfold ingestChunkRecs
  rw [docsRecs_ids, List.range_eq_range']

def c7docs : List (List Char × List (List Char)) :=
  [("a.pdf".toList, ["hi".toList])]

def c7backend : List (List Char) → Option (List (List ℚ)) :=
  fun ts => some (ts.map fun _ => [1])

def c7rec : ChunkRec :=
  { id := 0, source := "a.pdf".toList, page := 1, heading := none,
    charStart := 0, charEnd := 2, textPreview := "hi".toList,
    text := "hi".toList }

theorem ingest_all_deterministic_witness :
    (ingest_all c7backend 1 c7docs = some ([c7rec], [[(1 : ℚ)]])) ∧
    ((([c7rec], [[(1 : ℚ)]]).1 : List ChunkRec) =
        (([c7rec], [[(1 : ℚ)]]).1 : List ChunkRec) ∧
      (([c7rec], [[(1 : ℚ)]]).1 : List ChunkRec).map (fun r => r.id) =
        List.range (([c7rec], [[(1 : ℚ)]]).1 : List ChunkRec).length) :=
  ⟨by decide,
   ingest_all_deterministic c7docs c7backend c7backend 1 1
     ([c7rec], [[(1 : ℚ)]]) ([c7rec], [[(1 : ℚ)]]) (by decide) (by decide)⟩

end JlsChatbot
